import Mathlib

/-!
Shallow embedding of the chunked parallel transcription pipeline of
`src/app/audio_transcriber.py` (functions `split_audio`, `transcribe_chunk`,
`transcribe_chunks`, `convert_audio`, `transcribe_audio`), together with
theorems settling the spec's claims about it.

Modelling conventions:
* The external transcription service is an oracle `Nat → Except String String`
  giving, per chunk index, either the returned text (`Except.ok`) or a raised
  transport/service error (`Except.error`).
* Thread-pool nondeterminism is made explicit: `as_completed` iteration order
  is a parameter (a permutation of the chunk positions), both for the chunk
  exports in `split_audio` and for the transcriptions in `transcribe_chunks`.
* Filesystem effects on the temporary chunk directory are recorded as an event
  trace (`FsEvent`), so cleanup claims are statements about the final state
  computed from the trace.
-/

namespace AudioTranscriber

/-- `MAX_CHUNK_SIZE = 25 * 1024 * 1024` (line 16): max size before the service
rejects a request. -/
def MAX_CHUNK_SIZE : Nat := 25 * 1024 * 1024

/-- Default `chunk_length_ms = 5 * 60 * 1000` of `split_audio` (line 23). -/
def CHUNK_LENGTH_MS : Nat := 5 * 60 * 1000

/-- Iteration of Python's `range`: emit `s` and continue from `s + step` while
`s < stop`. The `fuel` argument only bounds the recursion depth; it is
initialised to `stop - start`, which `pythonRange_go_fuel_irrelevant` shows is
enough for the guard alone to decide termination. -/
def pythonRange_go (stop step : Nat) : Nat → Nat → List Nat
  | 0, _ => []
  | fuel + 1, s => if 0 < step ∧ s < stop then s :: pythonRange_go stop step fuel (s + step) else []

/-- Python's `range start stop step` for a positive step: the list
`[start, start+step, ...)` of values below `stop`. -/
def pythonRange (start stop step : Nat) : List Nat :=
  pythonRange_go stop step (stop - start) start

/-- Number of chunks computed at line 38:
`(len(audio) + chunk_length_ms - 1) // chunk_length_ms`. -/
def numChunks (total chunkLen : Nat) : Nat := (total + chunkLen - 1) / chunkLen

/-- The slice taken for a chunk starting at `s` (lines 44-45):
`end = min(start + chunk_length_ms, len(audio)); chunk = audio[start:end]`,
represented by its `(startMs, endMs)` bounds. -/
def segOf (total chunkLen s : Nat) : Nat × Nat := (s, min (s + chunkLen) total)

/-- The segments produced by the loop at line 43:
`for i, start in enumerate(range(0, len(audio), chunk_length_ms))`. -/
def segments (total chunkLen : Nat) : List (Nat × Nat) :=
  (pythonRange 0 total chunkLen).map (segOf total chunkLen)

/-- Zero-padding of `f"{i:04d}"`. -/
def pad4 (i : Nat) : String :=
  let s := toString i
  String.mk (List.replicate (4 - s.length) '0') ++ s

/-- Chunk artifact name `f"chunk_{i:04d}.mp3"` (line 46). -/
def chunkName (i : Nat) : String := "chunk_" ++ pad4 i ++ ".mp3"

/-- The chunk path list returned by `split_audio` (lines 49-64): paths are
appended in the order the export futures complete (`as_completed`, line 54),
given by `exportOrder`, a permutation of the chunk indices. -/
def split_audio (total chunkLen : Nat) (exportOrder : List Nat) : List String :=
  exportOrder.map chunkName

/-- `transcribe_chunk` (lines 72-84): one call to the service; on success the
response text is returned, on any exception the handler returns `""`. -/
def transcribe_chunk (outcome : Except String String) : String :=
  match outcome with
  | Except.ok t => t
  | Except.error _ => ""

/-- `transcribe_chunk` viewed against a stream of pending service responses:
it consumes exactly the first response and performs no further attempt. -/
def transcribe_chunk_stream (api : List (Except String String)) :
    String × List (Except String String) :=
  match api with
  | [] => ("", [])
  | o :: rest => (transcribe_chunk o, rest)

/-- Python's `" ".join(...)`. -/
def joinSpace : List String → String
  | [] => ""
  | [t] => t
  | t :: u :: ts => t ++ " " ++ joinSpace (u :: ts)

/-- `transcribe_chunks` (lines 86-116): chunk position `i` has service outcome
`outcomes[i]`; results are appended to `transcripts` in the order the futures
complete (`as_completed`, line 101), given by `completionOrder`, a permutation
of the chunk positions; finally `" ".join(transcripts)` is returned. -/
def transcribe_chunks (outcomes : List (Except String String))
    (completionOrder : List Nat) : String :=
  joinSpace (completionOrder.map
    (fun i => transcribe_chunk (outcomes.getD i (Except.error "missing"))))

/-- Filesystem events on the temporary chunk directory of one run. -/
inductive FsEvent
  | mkdtemp
  | rmtree
deriving DecidableEq

/-- Whether the chunk directory exists after a trace of events (it does not
exist before the run starts). -/
def dirExists (trace : List FsEvent) : Bool :=
  trace.foldl (fun _ e => match e with | FsEvent.mkdtemp => true | FsEvent.rmtree => false) false

/-- `convert_audio` (lines 118-135). Inputs beyond the byte size:
`loadResult` is the outcome of `AudioSegment.from_file` in `split_audio`
(duration in ms, or a raised loading error, in which case `split_audio`
removes the directory it created and re-raises, lines 65-70);
`exportOrder` is the completion order of the chunk exports (so the chunk list
handed on is `split_audio`'s return value, paths in that order, and position
`p` of that list carries chunk index `exportOrder[p]`);
`completionOrder` is the completion order of the transcriptions;
`transcribeExc` is an exception escaping the `transcribe_chunks` block, which
the `finally` at lines 132-135 must not swallow. The chunk directory is
created by `tempfile.mkdtemp` (so the `startswith(tempfile.gettempdir())`
guards at lines 68 and 134 hold) and removed by `shutil.rmtree`.
Returns the outcome (transcript, or propagated exception) and the trace of
directory events. -/
def convert_audio (size : Nat) (loadResult : Except String Nat)
    (oracle : Nat → Except String String) (exportOrder completionOrder : List Nat)
    (transcribeExc : Option String) : Except String String × List FsEvent :=
  if size < MAX_CHUNK_SIZE then
    ((match transcribeExc with
      | some m => Except.error m
      | none => Except.ok (transcribe_chunks [oracle 0] [0])), [])
  else
    match loadResult with
    | Except.error m => (Except.error m, [FsEvent.mkdtemp, FsEvent.rmtree])
    | Except.ok _ =>
      ((match transcribeExc with
        | some m => Except.error m
        | none => Except.ok (transcribe_chunks (exportOrder.map oracle) completionOrder)),
       [FsEvent.mkdtemp, FsEvent.rmtree])

/-- Result dictionary of `transcribe_audio`. -/
structure TranscribeResult where
  success : Bool
  transcription : Option String
  error : Option String
deriving DecidableEq

/-- `transcribe_audio` (lines 137-171): existence check, then `convert_audio`;
a falsy (empty) transcription yields the failure dictionary of lines 157-161;
any exception is caught at lines 167-171. Returns the result dictionary and
the chunk-directory event trace. -/
def transcribe_audio (pathExists : Bool) (path : String) (size : Nat)
    (loadResult : Except String Nat) (oracle : Nat → Except String String)
    (exportOrder completionOrder : List Nat) (transcribeExc : Option String) :
    TranscribeResult × List FsEvent :=
  if pathExists = false then
    (⟨false, none, some ("Audio file not found: " ++ path)⟩, [])
  else
    match convert_audio size loadResult oracle exportOrder completionOrder transcribeExc with
    | (Except.error m, tr) =>
      (⟨false, none, some ("Error transcribing audio: " ++ m)⟩, tr)
    | (Except.ok t, tr) =>
      if t = "" then
        (⟨false, none, some "Transcription failed or returned empty result"⟩, tr)
      else
        (⟨true, some t, none⟩, tr)

/-! ### Basic lemmas about `pythonRange` -/

lemma pythonRange_go_nil (stop step : Nat) : ∀ fuel s, stop ≤ s →
    pythonRange_go stop step fuel s = [] := by
  intro fuel s h
  cases fuel with
  | zero => rfl
  | succ f =>
    simp only [pythonRange_go, ite_eq_right_iff]
    intro hc
    omega

lemma pythonRange_go_fuel_irrelevant (stop step : Nat) (hs : 0 < step) :
    ∀ fuel₁ fuel₂ s, stop - s ≤ fuel₁ → stop - s ≤ fuel₂ →
      pythonRange_go stop step fuel₁ s = pythonRange_go stop step fuel₂ s := by
  intro fuel₁
  induction fuel₁ with
  | zero =>
    intro fuel₂ s h1 _
    rw [pythonRange_go_nil stop step 0 s (by omega),
      pythonRange_go_nil stop step fuel₂ s (by omega)]
  | succ f ih =>
    intro fuel₂ s h1 h2
    by_cases hlt : s < stop
    · cases fuel₂ with
      | zero => omega
      | succ g =>
        simp only [pythonRange_go, if_pos (And.intro hs hlt)]
        rw [ih g (s + step) (by omega) (by omega)]
    · rw [pythonRange_go_nil stop step (f + 1) s (by omega),
        pythonRange_go_nil stop step fuel₂ s (by omega)]

lemma pythonRange_eq_nil (start stop step : Nat) (h : stop ≤ start) :
    pythonRange start stop step = [] := by
  unfold pythonRange
  exact pythonRange_go_nil stop step (stop - start) start h

lemma pythonRange_cons (start stop step : Nat) (hs : 0 < step) (h : start < stop) :
    pythonRange start stop step = start :: pythonRange (start + step) stop step := by
  unfold pythonRange
  have hd : stop - start = (stop - start - 1) + 1 := by omega
  rw [hd]
  simp only [pythonRange_go, if_pos (And.intro hs h)]
  rw [pythonRange_go_fuel_irrelevant stop step hs (stop - start - 1)
    (stop - (start + step)) (start + step) (by omega) (by omega)]

lemma pythonRange_go_length (stop step : Nat) (hs : 0 < step) :
    ∀ fuel s, stop - s ≤ fuel →
      (pythonRange_go stop step fuel s).length = (stop - s + step - 1) / step := by
  intro fuel
  induction fuel with
  | zero =>
    intro s h
    have h0 : stop - s = 0 := by omega
    simp only [pythonRange_go, List.length_nil, h0]
    rw [Nat.div_eq_of_lt (by omega)]
  | succ f ih =>
    intro s h
    by_cases hlt : s < stop
    · simp only [pythonRange_go, if_pos (And.intro hs hlt), List.length_cons]
      rw [ih (s + step) (by omega)]
      have hd : 0 < stop - s := by omega
      rcases le_or_lt step (stop - s) with hc | hc
      · have e1 : stop - (s + step) + step - 1 = stop - s - 1 := by omega
        have e2 : stop - s + step - 1 = (stop - s - 1) + step := by omega
        rw [e1, e2, Nat.add_div_right _ hs]
      · have e1 : stop - (s + step) + step - 1 = step - 1 := by omega
        have e2 : stop - s + step - 1 = (stop - s - 1) + step := by omega
        rw [e1, e2, Nat.add_div_right _ hs,
          Nat.div_eq_of_lt (by omega), Nat.div_eq_of_lt (by omega)]
    · rw [pythonRange_go_nil stop step (f + 1) s (by omega)]
      have h0 : stop - s = 0 := by omega
      simp only [List.length_nil, h0]
      rw [Nat.div_eq_of_lt (by omega)]

lemma pythonRange_length (start stop step : Nat) (hs : 0 < step) :
    (pythonRange start stop step).length = (stop - start + step - 1) / step :=
  pythonRange_go_length stop step hs (stop - start) start (Nat.le_refl _)

lemma pythonRange_go_mem_lt (stop step : Nat) :
    ∀ fuel s x, x ∈ pythonRange_go stop step fuel s → x < stop := by
  intro fuel
  induction fuel with
  | zero =>
    intro s x hx
    simp [pythonRange_go] at hx
  | succ f ih =>
    intro s x hx
    by_cases hc : 0 < step ∧ s < stop
    · simp only [pythonRange_go, if_pos hc, List.mem_cons] at hx
      rcases hx with rfl | hx
      · exact hc.2
      · exact ih (s + step) x hx
    · simp [pythonRange_go, if_neg hc] at hx

lemma pythonRange_mem_lt (start stop step : Nat) (x : Nat)
    (hx : x ∈ pythonRange start stop step) : x < stop :=
  pythonRange_go_mem_lt stop step (stop - start) start x hx

/-! ### Structure of the segment list -/

lemma segments_go_spec (stop step : Nat) (hs : 0 < step) :
    ∀ fuel s, stop - s ≤ fuel → s < stop →
      List.Chain' (fun a b : Nat × Nat => a.2 = b.1)
        ((pythonRange_go stop step fuel s).map (segOf stop step))
      ∧ (((pythonRange_go stop step fuel s).map (segOf stop step)).head?).map Prod.fst = some s
      ∧ (((pythonRange_go stop step fuel s).map (segOf stop step)).getLast?).map Prod.snd
          = some stop := by
  intro fuel
  induction fuel with
  | zero =>
    intro s hf hlt
    omega
  | succ f ih =>
    intro s hf hlt
    simp only [pythonRange_go, if_pos (And.intro hs hlt)]
    by_cases h2 : stop ≤ s + step
    · rw [pythonRange_go_nil stop step f (s + step) h2]
      refine And.intro ?_ (And.intro ?_ ?_)
      · simp
      · simp [segOf]
      · simp [segOf, Nat.min_eq_right h2]
    · push_neg at h2
      obtain ⟨chain_t, head_t, last_t⟩ := ih (s + step) (by omega) h2
      have hmin : (segOf stop step s).2 = s + step := by
        simp [segOf, Nat.min_eq_left (Nat.le_of_lt h2)]
      obtain ⟨y0, hy0⟩ : ∃ y0, ((pythonRange_go stop step f (s + step)).map
          (segOf stop step)).head? = some y0 := by
        cases hh : ((pythonRange_go stop step f (s + step)).map (segOf stop step)).head? with
        | none => rw [hh] at head_t; simp at head_t
        | some y => exact ⟨y, rfl⟩
      obtain ⟨t, ht⟩ : ∃ t, (pythonRange_go stop step f (s + step)).map (segOf stop step)
          = y0 :: t := by
        cases hl : (pythonRange_go stop step f (s + step)).map (segOf stop step) with
        | nil => rw [hl] at hy0; simp at hy0
        | cons a l =>
          rw [hl] at hy0
          simp at hy0
          exact ⟨l, by rw [hy0]⟩
      have hy0fst : y0.1 = s + step := by
        rw [hy0] at head_t
        simpa using head_t
      refine And.intro ?_ (And.intro ?_ ?_)
      · rw [List.map_cons, ht, List.chain'_cons]
        refine And.intro (by rw [hmin, hy0fst]) ?_
        rw [← ht]
        exact chain_t
      · simp [segOf]
      · rw [List.map_cons, ht, List.getLast?_cons_cons, ← ht]
        exact last_t

/-! ### Length of the space-joined transcript -/

lemma String.length_empty_eq : ("" : String).length = 0 := rfl

lemma string_ne_empty_of_length_pos (s : String) (h : 0 < s.length) : s ≠ "" := by
  intro heq
  rw [heq] at h
  simp [String.length_empty_eq] at h

lemma joinSpace_length : ∀ L : List String, L ≠ [] →
    (joinSpace L).length = (L.map String.length).sum + (L.length - 1) := by
  intro L
  induction L with
  | nil => intro h; exact absurd rfl h
  | cons t ts ih =>
    intro _
    cases ts with
    | nil => simp [joinSpace]
    | cons u us =>
      have hrec := ih (by simp)
      have hsp : (" " : String).length = 1 := rfl
      simp only [joinSpace, String.length_append, hsp] at hrec ⊢
      simp only [List.map_cons, List.sum_cons, List.length_cons] at hrec ⊢
      omega

lemma map_getD_range {α : Type} (d : α) : ∀ l : List α,
    (List.range l.length).map (fun i => l.getD i d) = l := by
  intro l
  induction l with
  | nil => simp
  | cons a l ih =>
    rw [List.length_cons, List.range_succ_eq_map, List.map_cons, List.map_map]
    simp only [List.getD_cons_zero, Function.comp]
    congr 1

lemma map_getD_range_comp {α β : Type} (d : α) (g : α → β) (l : List α) :
    (List.range l.length).map (fun i => g (l.getD i d)) = l.map g := by
  have h1 : (List.range l.length).map (fun i => g (l.getD i d))
      = ((List.range l.length).map (fun i => l.getD i d)).map g := by
    rw [List.map_map]
    rfl
  rw [h1, map_getD_range d l]

/-- Helper: whatever the completion order (a permutation of the chunk
positions), the joined transcript of `transcribe_chunks` has one slot per
chunk and `N - 1` join separators: its length is the sum of the per-chunk
result lengths plus `N - 1`. -/
lemma transcribe_chunks_length (outcomes : List (Except String String))
    (co : List Nat) (hne : outcomes ≠ [])
    (hperm : co.Perm (List.range outcomes.length)) :
    (transcribe_chunks outcomes co).length
      = (outcomes.map (fun o => (transcribe_chunk o).length)).sum
        + (outcomes.length - 1) := by
  have hlen : co.length = outcomes.length := by
    rw [hperm.length_eq, List.length_range]
  have hco : co ≠ [] := by
    intro h
    rw [h] at hlen
    simp at hlen
    exact hne (List.eq_nil_of_length_eq_zero hlen.symm)
  unfold transcribe_chunks
  rw [joinSpace_length _ (by simpa using hco)]
  rw [List.map_map, List.length_map, hlen]
  congr 1
  have hpm := (hperm.map
    (fun i => (transcribe_chunk (outcomes.getD i (Except.error "missing"))).length)).sum_eq
  have h2 : (List.range outcomes.length).map
      (fun i => (transcribe_chunk (outcomes.getD i (Except.error "missing"))).length)
      = outcomes.map (fun o => (transcribe_chunk o).length) :=
    map_getD_range_comp (Except.error "missing") (fun o => (transcribe_chunk o).length) outcomes
  rw [← h2, ← hpm]
  rfl

/-! ### Claim theorems -/

/-- C6: for every `totalDurationMs > 0` and segment duration > 0, the loop of
`split_audio` (line 43) produces exactly `ceil(total / chunkLen)` segments that
partition `[0, total)` contiguously: the first starts at 0, each segment's end
equals the next segment's start, the last ends at `total`, and every segment is
nonempty (the last may be shorter than the nominal duration). -/
theorem C6_segments_partition (total chunkLen : Nat) (h0 : 0 < total) (hl : 0 < chunkLen) :
    (segments total chunkLen).length = numChunks total chunkLen
    ∧ ((segments total chunkLen).head?).map Prod.fst = some 0
    ∧ List.Chain' (fun a b : Nat × Nat => a.2 = b.1) (segments total chunkLen)
    ∧ ((segments total chunkLen).getLast?).map Prod.snd = some total
    ∧ ∀ p ∈ segments total chunkLen, p.1 < p.2 := by
  have hspec := segments_go_spec total chunkLen hl (total - 0) 0 (Nat.le_refl _) h0
  refine And.intro ?_ (And.intro ?_ (And.intro ?_ (And.intro ?_ ?_)))
  · unfold segments
    rw [List.length_map, pythonRange_length 0 total chunkLen hl, Nat.sub_zero]
    rfl
  · exact hspec.2.1
  · exact hspec.1
  · exact hspec.2.2
  · intro p hp
    unfold segments at hp
    obtain ⟨x, hx, rfl⟩ := List.mem_map.mp hp
    have hxlt := pythonRange_mem_lt 0 total chunkLen x hx
    simp only [segOf]
    exact lt_min (by omega) hxlt

/-- Witness for C6 at `total = 11`, `chunkLen = 5`:
segments `[(0,5), (5,10), (10,11)]`. -/
theorem C6_segments_partition_witness :
    0 < 11 ∧ 0 < 5
    ∧ ((segments 11 5).length = numChunks 11 5
      ∧ ((segments 11 5).head?).map Prod.fst = some 0
      ∧ List.Chain' (fun a b : Nat × Nat => a.2 = b.1) (segments 11 5)
      ∧ ((segments 11 5).getLast?).map Prod.snd = some 11
      ∧ ∀ p ∈ segments 11 5, p.1 < p.2) :=
  ⟨by norm_num, by norm_num, C6_segments_partition 11 5 (by norm_num) (by norm_num)⟩

/-- C1 fails on the code: `transcribe_chunks` appends each result as its future
completes (line 109) and joins in that arrival order, so the two completion
orders of the same two successful chunks give different transcripts, and
completion order `[1, 0]` does not give the index-ordered join `"a b"`. -/
theorem C1_completion_order_dependent :
    ([1, 0] : List Nat).Perm (List.range 2)
    ∧ transcribe_chunks [Except.ok "a", Except.ok "b"] [1, 0] = "b a"
    ∧ transcribe_chunks [Except.ok "a", Except.ok "b"] [0, 1] = "a b"
    ∧ ("b a" : String) ≠ "a b" := by
  refine And.intro (by decide) (And.intro rfl (And.intro rfl (by decide)))

/-- C4 fails on the code: `split_audio` appends each chunk path as its export
future completes (line 55), so with two chunks and export completion order
`[1, 0]` the returned list is not in segment-index order (the names themselves
do encode the zero-padded index). -/
theorem C4_export_order_dependent :
    ([1, 0] : List Nat).Perm (List.range (numChunks 600000 300000))
    ∧ split_audio 600000 300000 [1, 0] = ["chunk_0001.mp3", "chunk_0000.mp3"]
    ∧ ["chunk_0001.mp3", "chunk_0000.mp3"]
      ≠ (List.range (numChunks 600000 300000)).map chunkName := by
  refine And.intro (by decide) (And.intro rfl (by decide))

/-- C2 fails on the code for `N ≥ 2`: with two chunks and both transcriptions
failing, each chunk contributes `""` (line 84), `" ".join` gives the one-space
string `" "`, which is truthy at line 157, so `transcribe_audio` reports
success with a whitespace transcript instead of
`{success: false, error: "Transcription failed or returned empty result"}`. -/
theorem C2_total_failure_reports_success :
    ([0, 1] : List Nat).Perm (List.range (numChunks 600000 300000))
    ∧ (∀ i : Nat, transcribe_chunk ((fun _ => (Except.error "boom" : Except String String)) i) = "")
    ∧ (transcribe_audio true "a.mp3" MAX_CHUNK_SIZE (Except.ok 600000)
        (fun _ => Except.error "boom") [0, 1] [0, 1] none).1
      = ⟨true, some " ", none⟩ :=
  ⟨by decide, fun _ => rfl, by decide⟩

/-- C9: for a path that does not resolve to an existing file, `transcribe_audio`
returns the structured not-found failure naming the missing path, performs no
segmentation or transcription work (result independent of all later inputs,
empty directory-event trace), and raises nothing. -/
theorem C9_input_not_found (path : String) (size : Nat) (loadResult : Except String Nat)
    (oracle : Nat → Except String String) (eo co : List Nat) (tExc : Option String) :
    transcribe_audio false path size loadResult oracle eo co tExc
      = (⟨false, none, some ("Audio file not found: " ++ path)⟩, []) := by
  unfold transcribe_audio
  rw [if_pos rfl]

/-- C10: for a non-empty chunk list, whatever the completion order, the joined
output keeps one slot per chunk (a failed chunk contributes `""` but keeps its
slot), so its length is the per-chunk result lengths plus exactly `N - 1` join
separators; hence for `N ≥ 2` the output is non-empty even if every chunk
fails. -/
theorem C10_join_slots (outcomes : List (Except String String)) (co : List Nat)
    (hne : outcomes ≠ []) (hperm : co.Perm (List.range outcomes.length)) :
    (transcribe_chunks outcomes co).length
      = (outcomes.map (fun o => (transcribe_chunk o).length)).sum
        + (outcomes.length - 1)
    ∧ (2 ≤ outcomes.length → transcribe_chunks outcomes co ≠ "") := by
  have h := transcribe_chunks_length outcomes co hne hperm
  refine And.intro h ?_
  intro h2
  apply string_ne_empty_of_length_pos
  rw [h]
  omega

/-- Witness for C10: two chunks, both failing, completion order `[1, 0]`. -/
theorem C10_join_slots_witness :
    ([Except.error "x", Except.error "y"] : List (Except String String)) ≠ []
    ∧ ([1, 0] : List Nat).Perm
        (List.range ([Except.error "x", Except.error "y"] : List (Except String String)).length)
    ∧ ((transcribe_chunks [Except.error "x", Except.error "y"] [1, 0]).length
        = (([Except.error "x", Except.error "y"] : List (Except String String)).map
            (fun o => (transcribe_chunk o).length)).sum
          + (([Except.error "x", Except.error "y"] : List (Except String String)).length - 1)
      ∧ (2 ≤ ([Except.error "x", Except.error "y"] : List (Except String String)).length →
          transcribe_chunks [Except.error "x", Except.error "y"] [1, 0] ≠ "")) :=
  ⟨by simp, by decide, C10_join_slots _ _ (by simp) (by decide)⟩

/-- C5: the size threshold of `convert_audio` (line 123): strictly below
`MAX_CHUNK_SIZE` the file is transcribed as one whole-file chunk and no chunk
directory is ever created (no split); at or above the threshold the splitter
runs (directory created and removed) and the chunk list is transcribed. -/
theorem C5_threshold (size : Nat) (loadResult : Except String Nat)
    (oracle : Nat → Except String String) (eo co : List Nat) :
    (size < MAX_CHUNK_SIZE →
      convert_audio size loadResult oracle eo co none
        = (Except.ok (transcribe_chunk (oracle 0)), []))
    ∧ (MAX_CHUNK_SIZE ≤ size → ∀ dur, loadResult = Except.ok dur →
      convert_audio size loadResult oracle eo co none
        = (Except.ok (transcribe_chunks (eo.map oracle) co),
          [FsEvent.mkdtemp, FsEvent.rmtree])) := by
  constructor
  · intro h
    unfold convert_audio
    rw [if_pos h]
    rfl
  · intro h dur hlr
    unfold convert_audio
    rw [if_neg (by omega), hlr]

/-- Witness for C5 at the boundary sizes `MAX_CHUNK_SIZE - 1` (not split) and
`MAX_CHUNK_SIZE` (split), with two chunks. -/
theorem C5_threshold_witness :
    (MAX_CHUNK_SIZE - 1 < MAX_CHUNK_SIZE
      ∧ convert_audio (MAX_CHUNK_SIZE - 1) (Except.ok 600000)
          (fun i => (Except.ok (toString i) : Except String String)) [0, 1] [0, 1] none
        = (Except.ok (transcribe_chunk
            ((fun i => (Except.ok (toString i) : Except String String)) 0)), []))
    ∧ (MAX_CHUNK_SIZE ≤ MAX_CHUNK_SIZE
      ∧ convert_audio MAX_CHUNK_SIZE (Except.ok 600000)
          (fun i => (Except.ok (toString i) : Except String String)) [0, 1] [0, 1] none
        = (Except.ok (transcribe_chunks
            (([0, 1] : List Nat).map (fun i => (Except.ok (toString i) : Except String String)))
            [0, 1]),
          [FsEvent.mkdtemp, FsEvent.rmtree])) :=
  ⟨⟨by decide, (C5_threshold _ _ _ _ _).1 (by decide)⟩,
   ⟨Nat.le_refl _, (C5_threshold _ _ _ _ _).2 (Nat.le_refl _) 600000 rfl⟩⟩

/-- Helper: the chunk-directory trace of `convert_audio` is either empty (no
split) or a creation followed by a removal. -/
lemma convert_audio_trace_cases (size : Nat) (lr : Except String Nat)
    (oracle : Nat → Except String String) (eo co : List Nat) (tExc : Option String) :
    (convert_audio size lr oracle eo co tExc).2 = []
    ∨ (convert_audio size lr oracle eo co tExc).2 = [FsEvent.mkdtemp, FsEvent.rmtree] := by
  unfold convert_audio
  by_cases h : size < MAX_CHUNK_SIZE
  · rw [if_pos h]
    exact Or.inl rfl
  · rw [if_neg h]
    cases lr with
    | error m => exact Or.inr rfl
    | ok d => exact Or.inr rfl

/-- Helper: `transcribe_audio` either never touches the chunk directory (path
missing) or passes `convert_audio`'s trace through unchanged. -/
lemma transcribe_audio_trace_cases (pathExists : Bool) (path : String) (size : Nat)
    (lr : Except String Nat) (oracle : Nat → Except String String) (eo co : List Nat)
    (tExc : Option String) :
    (transcribe_audio pathExists path size lr oracle eo co tExc).2 = []
    ∨ (transcribe_audio pathExists path size lr oracle eo co tExc).2
      = (convert_audio size lr oracle eo co tExc).2 := by
  unfold transcribe_audio
  by_cases hp : pathExists = false
  · rw [if_pos hp]
    exact Or.inl rfl
  · rw [if_neg hp]
    rcases hcv : convert_audio size lr oracle eo co tExc with ⟨res, tr⟩
    cases res with
    | error m => exact Or.inr rfl
    | ok t =>
      by_cases ht : t = ""
      · right
        simp [ht]
      · right
        simp [ht]

/-- C7: after any call to `transcribe_audio` — missing input, success, empty
transcript, load failure in `split_audio`, or an exception escaping the
transcription block — the chunk directory does not exist: every trace either
never creates it or ends with the `shutil.rmtree` of lines 68-69 or 132-135. -/
theorem C7_cleanup (pathExists : Bool) (path : String) (size : Nat)
    (loadResult : Except String Nat) (oracle : Nat → Except String String)
    (eo co : List Nat) (tExc : Option String) :
    dirExists (transcribe_audio pathExists path size loadResult oracle eo co tExc).2 = false := by
  rcases transcribe_audio_trace_cases pathExists path size loadResult oracle eo co tExc with h | h
  · rw [h]
    rfl
  · rw [h]
    rcases convert_audio_trace_cases size loadResult oracle eo co tExc with h2 | h2
    · rw [h2]
      rfl
    · rw [h2]
      rfl

/-- C8: a failing service call makes the chunk transcriber return the empty
result instead of raising, consuming exactly the one pending response (no
retry: the rest of the response stream is returned untouched, same as for a
success); and within `transcribe_chunks` a chunk `i` failing changes only
slot `i` of the join to `""` — every sibling slot is unchanged and the number
of slots stays the number of chunks. -/
theorem C8_single_attempt_no_abort (m : String) (rest : List (Except String String))
    (outcomes : List (Except String String)) (i : Nat) (co : List Nat)
    (hi : i < outcomes.length) :
    transcribe_chunk_stream (Except.error m :: rest) = ("", rest)
    ∧ (∀ t, transcribe_chunk_stream (Except.ok t :: rest) = (t, rest))
    ∧ transcribe_chunks (outcomes.set i (Except.error m)) co
      = joinSpace (co.map (fun j => if j = i then ""
          else transcribe_chunk (outcomes.getD j (Except.error "missing"))))
    ∧ (co.map (fun j => if j = i then ""
        else transcribe_chunk (outcomes.getD j (Except.error "missing")))).length
      = co.length := by
  refine And.intro rfl (And.intro (fun t => rfl) (And.intro ?_ (by rw [List.length_map])))
  unfold transcribe_chunks
  congr 1
  apply List.map_congr_left
  intro j _
  by_cases hj : j = i
  · subst hj
    have h1 : (outcomes.set j (Except.error m)).getD j (Except.error "missing")
        = Except.error m := by
      simp [List.getD_eq_getElem?_getD, List.getElem?_set_self, hi]
    rw [h1, if_pos rfl]
    rfl
  · have h1 : (outcomes.set i (Except.error m)).getD j (Except.error "missing")
        = outcomes.getD j (Except.error "missing") := by
      simp [List.getD_eq_getElem?_getD, List.getElem?_set_ne (fun hh => hj hh.symm)]
    rw [h1, if_neg hj]

/-- Witness for C8: two successful chunks, chunk 0 fails instead. -/
theorem C8_single_attempt_no_abort_witness :
    (0 : Nat) < ([Except.ok "a", Except.ok "b"] : List (Except String String)).length
    ∧ (transcribe_chunk_stream (Except.error "err" :: [])
        = ("", ([] : List (Except String String)))
      ∧ (∀ t, transcribe_chunk_stream (Except.ok t :: [])
          = (t, ([] : List (Except String String))))
      ∧ transcribe_chunks (([Except.ok "a", Except.ok "b"] :
            List (Except String String)).set 0 (Except.error "err")) [0, 1]
        = joinSpace (([0, 1] : List Nat).map (fun j => if j = 0 then ""
            else transcribe_chunk (([Except.ok "a", Except.ok "b"] :
              List (Except String String)).getD j (Except.error "missing"))))
      ∧ (([0, 1] : List Nat).map (fun j => if j = 0 then ""
          else transcribe_chunk (([Except.ok "a", Except.ok "b"] :
            List (Except String String)).getD j (Except.error "missing")))).length
        = ([0, 1] : List Nat).length) :=
  ⟨by decide, C8_single_attempt_no_abort "err" [] [Except.ok "a", Except.ok "b"] 0 [0, 1]
    (by decide)⟩

lemma string_length_pos (s : String) (h : s ≠ "") : 0 < s.length := by
  cases s with
  | mk data =>
    cases data with
    | nil => exact absurd rfl h
    | cons c cs => simp [String.length]

/-- C3 counterexample: three chunks, the middle one fails, identity completion
order: the code joins `["a", "", "b"]` into `"a  b"` — the failed chunk's empty
slot leaves two adjacent separators — which differs from the claimed
single-separator join `"a b"` of the successful texts in index order. -/
theorem C3_counterexample :
    ([0, 1, 2] : List Nat).Perm (List.range 3)
    ∧ transcribe_chunks [Except.ok "a", Except.error "f", Except.ok "b"] [0, 1, 2] = "a  b"
    ∧ joinSpace ["a", "b"] = "a b"
    ∧ ("a  b" : String) ≠ "a b" :=
  ⟨by decide, rfl, rfl, by decide⟩

/-- C3 amended: in split mode, if at least one chunk's transcription returns
non-empty text, the run reports success and the transcript is the space-join of
all `N` per-chunk results in completion order (failed chunks contributing empty
slots): its length is the total length of the per-chunk results plus `N - 1`
separators, so a failed chunk between two successful ones yields adjacent
separators rather than a single one. -/
theorem C3_partial_failure_amended (path : String) (size dur : Nat)
    (oracle : Nat → Except String String) (eo co : List Nat) (j : Nat)
    (hsize : MAX_CHUNK_SIZE ≤ size)
    (heo : eo.Perm (List.range (numChunks dur CHUNK_LENGTH_MS)))
    (hco : co.Perm (List.range (numChunks dur CHUNK_LENGTH_MS)))
    (hj : j < numChunks dur CHUNK_LENGTH_MS)
    (hok : transcribe_chunk (oracle j) ≠ "") :
    (transcribe_audio true path size (Except.ok dur) oracle eo co none).1
      = ⟨true, some (transcribe_chunks (eo.map oracle) co), none⟩
    ∧ (transcribe_chunks (eo.map oracle) co).length
      = ((eo.map oracle).map (fun o => (transcribe_chunk o).length)).sum
        + (numChunks dur CHUNK_LENGTH_MS - 1) := by
  have heolen : eo.length = numChunks dur CHUNK_LENGTH_MS := by
    rw [heo.length_eq, List.length_range]
  have houtlen : (eo.map oracle).length = numChunks dur CHUNK_LENGTH_MS := by
    rw [List.length_map, heolen]
  have hne : eo.map oracle ≠ [] := by
    intro hcon
    rw [hcon] at houtlen
    simp at houtlen
    omega
  have hlen := transcribe_chunks_length (eo.map oracle) co hne (by rw [houtlen]; exact hco)
  rw [houtlen] at hlen
  have hjmem : j ∈ eo := heo.mem_iff.mpr (List.mem_range.mpr hj)
  have hslot : (transcribe_chunk (oracle j)).length
      ∈ (eo.map oracle).map (fun o => (transcribe_chunk o).length) :=
    List.mem_map_of_mem _ (List.mem_map_of_mem _ hjmem)
  have hsum : (transcribe_chunk (oracle j)).length
      ≤ ((eo.map oracle).map (fun o => (transcribe_chunk o).length)).sum :=
    List.single_le_sum (fun x _ => Nat.zero_le x) _ hslot
  have hpos : 0 < (transcribe_chunk (oracle j)).length := string_length_pos _ hok
  have htne : transcribe_chunks (eo.map oracle) co ≠ "" := by
    apply string_ne_empty_of_length_pos
    rw [hlen]
    omega
  refine And.intro ?_ hlen
  unfold transcribe_audio convert_audio
  rw [if_neg (by simp), if_neg (by omega : ¬ size < MAX_CHUNK_SIZE)]
  simp [htne]

/-- Witness for C3 amended: two chunks, chunk 0 returns `"a"`, chunk 1 fails;
the run succeeds with transcript `"a "`. -/
theorem C3_partial_failure_amended_witness :
    MAX_CHUNK_SIZE ≤ MAX_CHUNK_SIZE
    ∧ ([0, 1] : List Nat).Perm (List.range (numChunks 600000 CHUNK_LENGTH_MS))
    ∧ 0 < numChunks 600000 CHUNK_LENGTH_MS
    ∧ transcribe_chunk ((fun i => if i = 0 then Except.ok "a" else Except.error "f") 0) ≠ ""
    ∧ ((transcribe_audio true "a.mp3" MAX_CHUNK_SIZE (Except.ok 600000)
          (fun i => if i = 0 then Except.ok "a" else Except.error "f") [0, 1] [0, 1] none).1
        = ⟨true, some (transcribe_chunks (([0, 1] : List Nat).map
            (fun i => if i = 0 then Except.ok "a" else Except.error "f")) [0, 1]), none⟩
      ∧ (transcribe_chunks (([0, 1] : List Nat).map
            (fun i => if i = 0 then Except.ok "a" else Except.error "f")) [0, 1]).length
        = ((([0, 1] : List Nat).map
              (fun i => if i = 0 then Except.ok "a" else Except.error "f")).map
            (fun o => (transcribe_chunk o).length)).sum
          + (numChunks 600000 CHUNK_LENGTH_MS - 1)) :=
  ⟨Nat.le_refl _, by decide, by decide, by decide,
    C3_partial_failure_amended "a.mp3" MAX_CHUNK_SIZE 600000
      (fun i => if i = 0 then Except.ok "a" else Except.error "f") [0, 1] [0, 1] 0
      (Nat.le_refl _) (by decide) (by decide) (by decide) (by decide)⟩

end AudioTranscriber
